import Mathlib

/-!
Verification development for the pandas interface module
(`holoviews/interface/pandas.py`).

The module wraps a tabular data frame (named columns, labelled rows) in a
`DataFrameView` and converts it to view objects.  We embed the data model
shallowly: cell values are an inductive `Value` (ints and strings), a row is
an index label paired with the positional cell list, and a frame is the
ordered column-name list plus the row list.  `DataFrameView.__init__`
synchronises `data.columns` with `dimension_labels`, so a single column list
serves as both.  Fallible operations return `Except PError`.

External pandas operations used by the source are embedded by their
documented behaviour: `groupby` yields the distinct key tuples (sorted, as
pandas does with its default `sort=True`) each with the sub-frame of rows
having that key (all columns retained, row order preserved); `loc[ind, col]`
is label lookup (KeyError when the label is absent; a duplicated label would
yield a sub-series rather than a scalar, which we flag as an error since the
surrounding code expects a scalar); `filter(items)` reindexes the columns to
the given list.
-/

namespace Holoviews

/-- A cell value: the columns used by this module hold numbers or strings. -/
inductive Value where
  | int : Int → Value
  | str : String → Value
deriving DecidableEq, Repr

instance : Inhabited Value := ⟨Value.int 0⟩

/-- Comparison used for slice filtering (`k.start < df[dim]`).  Pandas
compares ints by numeric order and strings lexicographically; comparing
mixed types raises, and the callers of this model only compare values of a
single column, so the mixed cases are fixed arbitrarily to `false`. -/
def Value.ltb : Value → Value → Bool
  | Value.int a, Value.int b => decide (a < b)
  | Value.str a, Value.str b => decide (a < b)
  | _, _ => false

/-- Non-strict order used only to give `groupby` its sorted key order. -/
def Value.leb : Value → Value → Bool
  | Value.int a, Value.int b => decide (a ≤ b)
  | Value.str a, Value.str b => decide (a ≤ b)
  | Value.int _, Value.str _ => true
  | Value.str _, Value.int _ => false

/-- Python truthiness of a cell value (used by `heatmap`'s
`[index] if index else []`). -/
def Value.truthy : Value → Bool
  | Value.int n => decide (n ≠ 0)
  | Value.str s => decide (s ≠ "")

/-- A row: the frame's index label paired with the positional cells. -/
abbrev Row := Value × List Value

/-- The embedded `DataFrameView`: construction sets `data.columns` to
`dimension_labels`, so `dims` is simultaneously the column list and the
declared dimension list.  `label` is the view's display label. -/
structure DFrameView where
  label : String
  dims : List String
  rows : List Row
deriving DecidableEq, Repr

/-- Errors raised by the embedded operations. -/
inductive PError where
  | invalidDim : List String → PError
  | keyError : Value → PError
  | locDuplicate : Value → PError
  | typeError : String → PError
  | noGroupKeys : PError
  | selectionArity : Nat → Nat → PError
  | arity : String → PError
deriving DecidableEq, Repr

/-- Cell of a row in column `d`, given the frame's column list (the source
reads cells positionally via `cols.index(d)`; the default is never reached
by callers, which validate the column names first). -/
def cellOf (cols : List String) (cells : List Value) (d : String) : Value :=
  cells.getD (cols.indexOf d) (Value.int 0)

/-- The tuple of a row's values in the columns `ds` (a `groupby` key). -/
def rowKey (cols : List String) (ds : List String) (r : Row) : List Value :=
  ds.map (fun d => cellOf cols r.2 d)

/-- Reindex a row to the column list `keep`. -/
def projectCols (cols : List String) (keep : List String) (r : Row) : Row :=
  (r.1, keep.map (fun d => cellOf cols r.2 d))

/-- Embeds `df.filter(items=keep)`: reindex the columns to `keep` (absent names are
dropped, matching pandas). -/
def filterCols (df : DFrameView) (keep : List String) : DFrameView :=
  let cols := keep.filter (fun d => decide (d ∈ df.dims))
  { label := df.label, dims := cols, rows := df.rows.map (projectCols df.dims cols) }

/-- Insert `x` into a `le`-sorted list. -/
def insertSorted (le : List Value → List Value → Bool) (x : List Value) :
    List (List Value) → List (List Value)
  | [] => [x]
  | y :: ys => if le x y then x :: y :: ys else y :: insertSorted le x ys

/-- Insertion sort, modelling the sorted key order of pandas `groupby`. -/
def sortKeys (le : List Value → List Value → Bool) : List (List Value) → List (List Value)
  | [] => []
  | x :: xs => insertSorted le x (sortKeys le xs)

/-- Lexicographic order on key tuples. -/
def keyLe : List Value → List Value → Bool
  | [], _ => true
  | _ :: _, [] => false
  | a :: as, b :: bs => if a = b then keyLe as bs else Value.leb a b

/-- First-occurrence deduplication: the distinct elements of the list in
order of first appearance, skipping anything in `seen`. -/
def firstOccur {α : Type} [DecidableEq α] (seen : List α) : List α → List α
  | [] => []
  | x :: xs => if x ∈ seen then firstOccur seen xs else x :: firstOccur (x :: seen) xs

/-- Embeds `df.groupby(ds)`: one `(key, sub-frame)` pair per distinct value tuple of
the columns `ds`, keys sorted (pandas default `sort=True`), each sub-frame
keeping every column and the original row order.  Callers never pass an
empty `ds` without guarding (pandas raises on no group keys). -/
def groupby (df : DFrameView) (ds : List String) : List (List Value × DFrameView) :=
  let keys := sortKeys keyLe (firstOccur [] (df.rows.map (rowKey df.dims ds)))
  keys.map (fun k =>
    (k, { label := df.label, dims := df.dims,
          rows := df.rows.filter (fun r => decide (rowKey df.dims ds r = k)) }))

/-- Embeds `frame.loc[ind, col]`: scalar lookup of the row labelled `ind`.  A
missing label raises KeyError; a duplicated label would produce a
sub-series, not a scalar, which this model reports as an error. -/
def locValue (g : DFrameView) (ind : Value) (col : String) : Except PError Value :=
  match g.rows.filter (fun r => decide (r.1 = ind)) with
  | [] => Except.error (PError.keyError ind)
  | [r] =>
    if col ∈ g.dims then Except.ok (cellOf g.dims r.2 col)
    else Except.error (PError.keyError (Value.str col))
  | _ => Except.error (PError.locDuplicate ind)

/-- A selection criterion: an equality value or a slice (open interval). -/
inductive Criterion where
  | eq : Value → Criterion
  | interval : Value → Value → Criterion
deriving DecidableEq, Repr

/-- Whether a cell satisfies one criterion: equality for scalars, the strict
open interval `k.start < v < k.stop` for slices (as the source writes it). -/
def matchesCriterion (c : Criterion) (v : Value) : Bool :=
  match c with
  | Criterion.eq w => decide (v = w)
  | Criterion.interval lo hi => Value.ltb lo v && Value.ltb v hi

/-- Embeds `DataFrameView.select`: filters the data once per criterion, in order,
then clones.  A criterion naming an unknown column raises (pandas KeyError
on `df[dim]`). -/
def select (df : DFrameView) : List (String × Criterion) → Except PError DFrameView
  | [] => Except.ok df
  | dc :: rest =>
    if dc.1 ∈ df.dims then
      select { df with
               rows := df.rows.filter (fun r => matchesCriterion dc.2 (cellOf df.dims r.2 dc.1)) }
        rest
    else Except.error (PError.keyError (Value.str dc.1))

/-- Embeds `DataFrameView.__getitem__`: the empty tuple returns the view itself;
a tuple of at most `ndims` values is zipped onto the dimension labels and
delegated to `select`; a longer tuple raises.  (The source's error message
formats `self.ndims` and `len(key)` in that swapped order; the structured
error carries the two numbers as the source formats them.) -/
def getitem (df : DFrameView) (key : List Criterion) : Except PError DFrameView :=
  if key = [] then Except.ok df
  else if key.length ≤ df.dims.length then select df (df.dims.zip key)
  else Except.error (PError.selectionArity df.dims.length key.length)

/-- Embeds `DataFrameView._split_dimensions`: validates the requested dimensions
(reporting every unknown name at once), then groups and drops the grouped
columns from each sub-view.  Pandas raises when no group keys are passed. -/
def splitDimensions (df : DFrameView) (ds : List String) :
    Except PError (List (List Value × DFrameView)) :=
  let invalid := firstOccur [] (ds.filter (fun d => decide (d ∉ df.dims)))
  if invalid ≠ [] then Except.error (PError.invalidDim invalid)
  else if ds = [] then Except.error PError.noGroupKeys
  else
    let keep := df.dims.filter (fun d => decide (d ∉ ds))
    Except.ok ((groupby df ds).map (fun kg =>
      (kg.1, { label := df.label, dims := keep,
               rows := kg.2.rows.map (projectCols df.dims keep) })))

/-! ### The projection engine: `DFrame._export_dataview` and its callers -/

/-- A mapping key produced by the projection: a value tuple, a collapsed
bare scalar, or a joined string. -/
inductive Key where
  | scalar : Value → Key
  | tup : List Value → Key
  | str : String → Key
deriving DecidableEq, Repr

/-- The intermediate view object handed back by the `view_method` callbacks
(`_create_table` / `_create_heatmap`): label, value dimension, view
dimension list and the key-to-value mapping. -/
structure BuiltView where
  label : String
  valueDim : String
  dims : List String
  mapping : List (Key × Value)
deriving DecidableEq, Repr

/-- Signature of the `view_method` callback of `_export_dataview`. -/
abbrev ViewMethod := List (Key × Value) → String → List String → BuiltView

/-- Embeds `DFrame._create_table`: label is `self.label + (' - ' if self.label
else '') + value_dim`; dims pass through (by name). -/
def createTable (lbl : String) (td : List (Key × Value)) (vd : String)
    (ds : List String) : BuiltView :=
  { label := lbl ++ (if lbl ≠ "" then " - " else "") ++ vd,
    valueDim := vd, dims := ds, mapping := td }

/-- Embeds `DFrame._create_heatmap`: same labelling rule as `_create_table`. -/
def createHeatMap (lbl : String) (td : List (Key × Value)) (vd : String)
    (ds : List String) : BuiltView :=
  { label := lbl ++ (if lbl ≠ "" then " - " else "") ++ vd,
    valueDim := vd, dims := ds, mapping := td }

/-- Result of `_export_dataview`: a bare view when `map_dims` is empty,
otherwise a `ViewMap` keyed by the map-dimension value tuples. -/
inductive ExportResult where
  | single : BuiltView → ExportResult
  | vmap : List (List Value × BuiltView) → ExportResult
deriving DecidableEq, Repr

/-- The column filtering step of `_export_dataview`: drop the unselected
columns, or take a plain copy when nothing would be dropped. -/
def filteredFrame (df : DFrameView) (vd : String) (view_dims map_dims : List String) :
    DFrameView :=
  let selected := vd :: view_dims ++ map_dims
  if df.dims.filter (fun d => decide (d ∉ selected)) ≠ [] then filterCols df selected else df

/-- Reduce-mode row key: the tuple of the row's `view_dims` values, or the
literal `value_dim` name when `view_dims` is empty. -/
def reduceKeyOf (cols : List String) (vd : String) (view_dims : List String) (r : Row) : Key :=
  if view_dims ≠ [] then Key.tup (rowKey cols view_dims r) else Key.str vd

/-- One `defaultdict(list)` accumulation step: append `v` to the list at
`k`, creating the entry at the end on first occurrence. -/
def collate (td : List (Key × List Value)) (k : Key) (v : Value) :
    List (Key × List Value) :=
  if td.any (fun p => decide (p.1 = k)) then
    td.map (fun p => if p.1 = k then (p.1, p.2 ++ [v]) else p)
  else td ++ [(k, [v])]

/-- Reduce mode of `_export_dataview`: iterate the rows of a map group,
collate each row's value-column entry under its group key, then apply
`reduce_fn` to every accumulated list. -/
def reduceGroup (vd : String) (rf : List Value → Value) (view_dims : List String)
    (g : DFrameView) : List (Key × Value) :=
  (g.rows.foldl (fun td r => collate td (reduceKeyOf g.dims vd view_dims r)
                               (cellOf g.dims r.2 vd)) []).map
    (fun p => (p.1, rf p.2))

/-- The select-mode loop state: the source mutates the local variables
`indices` and `view_dimensions` inside the per-map-group loop, so they are
threaded as explicit state across map groups. -/
structure SelState where
  indices : List Value
  viewDimensions : List String
deriving DecidableEq, Repr

/-- Select-mode preamble, as the source writes it: when the current index
list does not have size exactly one, default it to every row label of the
group if it is empty, and prepend the synthetic Index dimension. -/
def stateUpdate (st : SelState) (view_dims : List String) (g : DFrameView) : SelState :=
  if st.indices.length ≠ 1 then
    { indices := if st.indices ≠ [] then st.indices else g.rows.map (fun r => r.1),
      viewDimensions := "Index" :: view_dims }
  else st

/-- Collapse a composite key: tuples of more than one component stay
tuples, a singleton collapses to its bare scalar (`key[0]`). -/
def collapseKey (key : List Value) : Key :=
  if key.length > 1 then Key.tup key else Key.scalar (key.headD (Value.int 0))

/-- Select-mode zero-dims key `'_'.join([ind, value_dim])`: joining is only
defined for string labels; an int label raises TypeError in the source. -/
def joinIndexKey (ind : Value) (vd : String) : Except PError Key :=
  match ind with
  | Value.str s => Except.ok (Key.str (s ++ "_" ++ vd))
  | Value.int _ => Except.error (PError.typeError "sequence item 0: expected str instance")

/-- Select-mode key construction: `key = tuple(k)`, the index prepended when
the effective index list does not have size one, singleton collapse, and
the joined-string fallback when `view_dims` is empty. -/
def selKey (vd : String) (view_dims : List String) (effLen : Nat) (k : List Value)
    (ind : Value) : Except PError Key :=
  if view_dims ≠ [] then
    Except.ok (collapseKey (if effLen ≠ 1 then ind :: k else k))
  else joinIndexKey ind vd

/-- The `(group key, group, index)` triples the select mode iterates over:
outer loop over the view-dimension groups, inner loop over the indices. -/
def selPairs (view_dims : List String) (st : SelState) (g : DFrameView) :
    List (List Value × DFrameView × Value) :=
  ((if view_dims ≠ [] then groupby g view_dims else [([], g)]).map
    (fun kg => st.indices.map (fun ind => (kg.1, kg.2, ind)))).flatten

/-- One select-mode entry: build the key, then read
`view_group.loc[ind, value_dim]`. -/
def selEntry (vd : String) (view_dims : List String) (effLen : Nat)
    (t : List Value × DFrameView × Value) : Except PError (Key × Value) :=
  match selKey vd view_dims effLen t.1 t.2.2 with
  | Except.error e => Except.error e
  | Except.ok key =>
    match locValue t.2.1 t.2.2 vd with
    | Except.error e => Except.error e
    | Except.ok v => Except.ok (key, v)

/-- Sequential effectful map over a list (the select-mode loop body with
the first raised error propagated). -/
def seqMap {α β : Type} (f : α → Except PError β) : List α → Except PError (List β)
  | [] => Except.ok []
  | x :: xs =>
    match f x with
    | Except.error e => Except.error e
    | Except.ok y =>
      match seqMap f xs with
      | Except.error e => Except.error e
      | Except.ok ys => Except.ok (y :: ys)

/-- Models `temp_dict[key] = value` on an insertion-ordered dict: overwrite the
value in place when the key exists, append otherwise. -/
def odInsert (td : List (Key × Value)) (k : Key) (v : Value) : List (Key × Value) :=
  if td.any (fun p => decide (p.1 = k)) then
    td.map (fun p => if p.1 = k then (p.1, v) else p)
  else td ++ [(k, v)]

/-- Select mode of `_export_dataview` for one map group: update the loop
state, iterate `(view group, index)` pairs, build keys and look values up,
and assemble the insertion-ordered `temp_dict`. -/
def selectGroup (vd : String) (view_dims : List String) (st : SelState) (g : DFrameView) :
    Except PError (List (Key × Value) × SelState) :=
  let st2 := stateUpdate st view_dims g
  match seqMap (selEntry vd view_dims st2.indices.length) (selPairs view_dims st2 g) with
  | Except.error e => Except.error e
  | Except.ok entries =>
    Except.ok (entries.foldl (fun td kv => odInsert td kv.1 kv.2) [], st2)

/-- The per-map-group body of `_export_dataview`: reduce mode when a
`reduce_fn` is supplied (the index list is never consulted there), select
mode otherwise.  The view is built from the state's `view_dimensions`. -/
def processMapGroup (vm : ViewMethod) (vd : String) (rf : Option (List Value → Value))
    (view_dims : List String) (st : SelState) (g : DFrameView) :
    Except PError (BuiltView × SelState) :=
  match rf with
  | some f => Except.ok (vm (reduceGroup vd f view_dims g) vd st.viewDimensions, st)
  | none =>
    match selectGroup vd view_dims st g with
    | Except.error e => Except.error e
    | Except.ok (td, st2) => Except.ok (vm td vd st2.viewDimensions, st2)

/-- The map-group loop of `_export_dataview`, threading the mutated local
state from one group to the next and collecting `vmap[map_key] = view`. -/
def foldGroups (vm : ViewMethod) (vd : String) (rf : Option (List Value → Value))
    (view_dims : List String) :
    SelState → List (List Value × DFrameView) → Except PError (List (List Value × BuiltView))
  | _, [] => Except.ok []
  | st, g :: gs =>
    match processMapGroup vm vd rf view_dims st g.2 with
    | Except.error e => Except.error e
    | Except.ok (view, st2) =>
      match foldGroups vm vd rf view_dims st2 gs with
      | Except.error e => Except.error e
      | Except.ok tail => Except.ok ((g.1, view) :: tail)

/-- Embeds `DFrame._export_dataview`: validate the referenced dimensions (raising
on the first unknown name), filter the columns, split into map groups when
`map_dims` is given, process each group, and return either the `ViewMap`
or the single produced view (`vmap[None]`). -/
def exportDataview (df : DFrameView) (vd : String) (indices : List Value)
    (rf : Option (List Value → Value)) (view_dims map_dims : List String)
    (vm : ViewMethod) : Except PError ExportResult :=
  match (vd :: view_dims ++ map_dims).find? (fun d => decide (d ∉ df.dims)) with
  | some d => Except.error (PError.invalidDim [d])
  | none =>
    let fdf := filteredFrame df vd view_dims map_dims
    let mapGroups := if map_dims ≠ [] then groupby fdf map_dims else [([], fdf)]
    match foldGroups vm vd rf view_dims ⟨indices, view_dims⟩ mapGroups with
    | Except.error e => Except.error e
    | Except.ok pairs =>
      if map_dims ≠ [] then Except.ok (ExportResult.vmap pairs)
      else
        match pairs with
        | [(_, v)] => Except.ok (ExportResult.single v)
        | _ => Except.error (PError.keyError (Value.str "None"))

/-- Embeds `DFrame.table`: export with the `_create_table` callback. -/
def DFrameTable (df : DFrameView) (vd : String) (indices : List Value)
    (rf : Option (List Value → Value)) (ds map_dims : List String) :
    Except PError ExportResult :=
  exportDataview df vd indices rf ds map_dims (createTable df.label)

/-- Embeds `DFrame.heatmap`: wraps the optional index by Python truthiness, runs
the arity guard exactly as the source writes it (`1 > len(dims) > 2`, a
chained comparison that is never true), then exports with the
`_create_heatmap` callback. -/
def DFrameHeatmap (df : DFrameView) (vd : String) (ds : List String)
    (index : Option Value) (rf : Option (List Value → Value)) (map_dims : List String) :
    Except PError ExportResult :=
  let indices :=
    match index with
    | some v => if v.truthy then [v] else []
    | none => []
  if 1 > ds.length ∧ ds.length > 2 then
    Except.error (PError.arity "HeatMap supports either one or two dimensions")
  else exportDataview df vd indices rf ds map_dims (createHeatMap df.label)

/-- Concrete reduce function used in examples: Python's `sum` over the
collected (numeric) column entries. -/
def sumVals (vs : List Value) : Value :=
  Value.int (vs.foldl (fun a v => a + (match v with | Value.int n => n | Value.str _ => 0)) 0)

/-! ### Helper lemmas about the list machinery -/

theorem insertSorted_perm (le : List Value → List Value → Bool) (x : List Value) :
    ∀ l : List (List Value), (insertSorted le x l).Perm (x :: l) := by
  intro l
  induction l with
  | nil => exact List.Perm.refl _
  | cons y ys ih =>
    unfold insertSorted
    by_cases h : le x y = true
    · simp [h]
    · simp only [h, if_false]
      exact (ih.cons y).trans (List.Perm.swap x y ys)

theorem sortKeys_perm (le : List Value → List Value → Bool) :
    ∀ l : List (List Value), (sortKeys le l).Perm l := by
  intro l
  induction l with
  | nil => exact List.Perm.refl _
  | cons x xs ih =>
    unfold sortKeys
    exact (insertSorted_perm le x (sortKeys le xs)).trans (ih.cons x)

theorem mem_firstOccur_imp {α : Type} [DecidableEq α] :
    ∀ {seen l : List α} {a : α}, a ∈ firstOccur seen l → a ∈ l ∧ a ∉ seen := by
  intro seen l
  induction l generalizing seen with
  | nil => intro a h; simp [firstOccur] at h
  | cons x xs ih =>
    intro a h
    unfold firstOccur at h
    by_cases hx : x ∈ seen
    · simp only [hx, if_true] at h
      obtain ⟨h1, h2⟩ := ih h
      exact ⟨List.mem_cons_of_mem x h1, h2⟩
    · simp only [hx, if_false, List.mem_cons] at h
      rcases h with h | h
      · subst h; exact ⟨List.mem_cons_self a xs, hx⟩
      · obtain ⟨h1, h2⟩ := ih h
        refine ⟨List.mem_cons_of_mem x h1, fun hc => h2 (List.mem_cons_of_mem x hc)⟩

theorem mem_firstOccur_of {α : Type} [DecidableEq α] :
    ∀ {seen l : List α} {a : α}, a ∈ l → a ∉ seen → a ∈ firstOccur seen l := by
  intro seen l
  induction l generalizing seen with
  | nil => intro a h; simp at h
  | cons x xs ih =>
    intro a hmem hns
    unfold firstOccur
    by_cases hx : x ∈ seen
    · simp only [hx, if_true]
      rcases List.mem_cons.mp hmem with h | h
      · exact absurd (h ▸ hx) hns
      · exact ih h hns
    · simp only [hx, if_false]
      by_cases hax : a = x
      · exact hax ▸ List.mem_cons_self x _
      · rcases List.mem_cons.mp hmem with h | h
        · exact absurd h hax
        · refine List.mem_cons_of_mem x (ih h ?_)
          simp only [List.mem_cons, not_or]
          exact ⟨hax, hns⟩

theorem nodup_firstOccur {α : Type} [DecidableEq α] :
    ∀ {seen l : List α}, (firstOccur seen l).Nodup := by
  intro seen l
  induction l generalizing seen with
  | nil => simp [firstOccur]
  | cons x xs ih =>
    unfold firstOccur
    by_cases hx : x ∈ seen
    · simp only [hx, if_true]; exact ih
    · simp only [hx, if_false, List.nodup_cons]
      refine ⟨fun hc => ?_, ih⟩
      exact (mem_firstOccur_imp hc).2 (List.mem_cons_self x seen)

theorem firstOccur_seen_congr {α : Type} [DecidableEq α] :
    ∀ {l s s' : List α}, (∀ a, a ∈ s ↔ a ∈ s') → firstOccur s l = firstOccur s' l := by
  intro l
  induction l with
  | nil => intro s s' _; rfl
  | cons x xs ih =>
    intro s s' h
    unfold firstOccur
    by_cases hx : x ∈ s
    · simp only [hx, (h x).mp hx, if_true]; exact ih h
    · have hx' : x ∉ s' := fun hc => hx ((h x).mpr hc)
      simp only [hx, hx', if_false]
      refine congrArg (x :: ·) (ih fun a => ?_)
      simp only [List.mem_cons]
      exact or_congr Iff.rfl (h a)

theorem seqMap_ok_mem {α β : Type} {f : α → Except PError β} :
    ∀ {xs : List α} {ys : List β}, seqMap f xs = Except.ok ys →
      ∀ y ∈ ys, ∃ x ∈ xs, f x = Except.ok y := by
  intro xs
  induction xs with
  | nil =>
    intro ys h y hy
    simp only [seqMap] at h
    cases h; simp at hy
  | cons x xs ih =>
    intro ys h y hy
    unfold seqMap at h
    cases hfx : f x with
    | error e => rw [hfx] at h; cases h
    | ok b =>
      rw [hfx] at h
      cases hrest : seqMap f xs with
      | error e => rw [hrest] at h; cases h
      | ok bs =>
        rw [hrest] at h
        cases h
        rcases List.mem_cons.mp hy with h | h
        · exact ⟨x, List.mem_cons_self x xs, h ▸ hfx⟩
        · obtain ⟨x', hx', hfx'⟩ := ih hrest y h
          exact ⟨x', List.mem_cons_of_mem x hx', hfx'⟩

theorem mem_odInsert {td : List (Key × Value)} {k : Key} {v : Value} {p : Key × Value}
    (h : p ∈ odInsert td k v) : (∃ q ∈ td, q.1 = p.1) ∨ p = (k, v) := by
  unfold odInsert at h
  by_cases hc : td.any (fun q => decide (q.1 = k)) = true
  · simp only [hc, if_true] at h
    obtain ⟨q, hq, hqe⟩ := List.mem_map.mp h
    left
    refine ⟨q, hq, ?_⟩
    by_cases hk : q.1 = k
    · simp only [hk, if_true] at hqe
      rw [← hqe]
      exact hk
    · simp only [hk, if_false] at hqe
      rw [hqe]
  · rw [if_neg hc] at h
    rcases List.mem_append.mp h with h | h
    · exact Or.inl ⟨p, h, rfl⟩
    · exact Or.inr (List.mem_singleton.mp h)

theorem foldl_odInsert_mem :
    ∀ (es td : List (Key × Value)) (kv : Key × Value),
      kv ∈ es.foldl (fun a e => odInsert a e.1 e.2) td →
      (∃ p ∈ td, p.1 = kv.1) ∨ (∃ e ∈ es, e.1 = kv.1) := by
  intro es
  induction es with
  | nil =>
    intro td kv h
    exact Or.inl ⟨kv, h, rfl⟩
  | cons e es ih =>
    intro td kv h
    simp only [List.foldl_cons] at h
    rcases ih (odInsert td e.1 e.2) kv h with h1 | h1
    · obtain ⟨p, hp, hpe⟩ := h1
      rcases mem_odInsert hp with h2 | h2
      · obtain ⟨q, hq, hqe⟩ := h2
        exact Or.inl ⟨q, hq, hqe.trans hpe⟩
      · right
        exact ⟨e, List.mem_cons_self e es, by rw [h2] at hpe; exact hpe⟩
    · obtain ⟨e', he', hee⟩ := h1
      exact Or.inr ⟨e', List.mem_cons_of_mem e he', hee⟩

theorem join_filter_perm (f : Row → List Value) :
    ∀ (keys : List (List Value)) (rows : List Row), keys.Nodup →
      (∀ r ∈ rows, f r ∈ keys) →
      ((keys.map (fun k => rows.filter (fun r => decide (f r = k)))).flatten).Perm rows := by
  intro keys
  induction keys with
  | nil =>
    intro rows _ hc
    have : rows = [] := by
      cases rows with
      | nil => rfl
      | cons r rs => exact absurd (hc r (List.mem_cons_self r rs)) (List.not_mem_nil _)
    simp [this]
  | cons k ks ih =>
    intro rows hnd hc
    simp only [List.map_cons, List.flatten_cons]
    have hmapeq : ks.map (fun k' => rows.filter (fun r => decide (f r = k'))) =
        ks.map (fun k' => (rows.filter (fun r => !decide (f r = k))).filter
          (fun r => decide (f r = k'))) := by
      refine List.map_congr_left fun k' hk' => ?_
      rw [List.filter_filter]
      refine List.filter_congr fun r _ => ?_
      by_cases hr : f r = k'
      · have hkk : k' ≠ k := fun he => (List.nodup_cons.mp hnd).1 (he ▸ hk')
        have hne : ¬(f r = k) := fun hcc => hkk (hr.symm.trans hcc)
        simp [hr, hne, hkk]
      · simp [hr]
    rw [hmapeq]
    have hperm := ih (rows.filter (fun r => !decide (f r = k)))
      (List.nodup_cons.mp hnd).2
      (by
        intro r hr
        obtain ⟨hr1, hr2⟩ := List.mem_filter.mp hr
        have := hc r hr1
        rcases List.mem_cons.mp this with h | h
        · simp [h] at hr2
        · exact h)
    exact ((hperm.append_left _)).trans
      (List.filter_append_perm (fun r => decide (f r = k)) rows)

/-- Declarative description of the `defaultdict(list)` accumulation: the
existing entries extended with their further hits, then one entry per new
key in order of first appearance, holding all its hits. -/
def collateSpec (ko : Row → Key) (vo : Row → Value) (td : List (Key × List Value))
    (rows : List Row) : List (Key × List Value) :=
  td.map (fun p => (p.1, p.2 ++ (rows.filter (fun r => decide (ko r = p.1))).map vo))
    ++ (firstOccur (td.map Prod.fst) (rows.map ko)).map
        (fun k => (k, (rows.filter (fun r => decide (ko r = k))).map vo))

theorem collateSpec_cons (ko : Row → Key) (vo : Row → Value)
    (td : List (Key × List Value)) (r : Row) (rest : List Row) :
    collateSpec ko vo (collate td (ko r) (vo r)) rest = collateSpec ko vo td (r :: rest) := by
  unfold collateSpec collate
  by_cases hc : td.any (fun p => decide (p.1 = ko r)) = true
  case pos =>
    rw [if_pos hc]
    have hkr : ko r ∈ td.map Prod.fst := by
      obtain ⟨p, hp, hpe⟩ := List.any_eq_true.mp hc
      exact List.mem_map.mpr ⟨p, hp, of_decide_eq_true hpe⟩
    congr 1
    · rw [List.map_map]
      refine List.map_congr_left fun p _ => ?_
      by_cases hp : p.1 = ko r
      · have hde : ko r = p.1 := hp.symm
        simp [Function.comp, if_pos hp, List.filter_cons, hde, List.append_assoc]
      · have hde : ¬(ko r = p.1) := fun h => hp h.symm
        simp [Function.comp, if_neg hp, List.filter_cons, hde]
    · have hseen : (td.map (fun p => if p.1 = ko r then (p.1, p.2 ++ [vo r]) else p)).map
          Prod.fst = td.map Prod.fst := by
        rw [List.map_map]
        refine List.map_congr_left fun p _ => ?_
        by_cases hp : p.1 = ko r <;> simp [Function.comp, hp]
      rw [hseen, List.map_cons]
      simp only [firstOccur, hkr, if_true]
      refine List.map_congr_left fun k hk => ?_
      have hkne : ¬(ko r = k) := by
        intro he
        exact (mem_firstOccur_imp hk).2 (he ▸ hkr)
      simp [List.filter_cons, hkne]
  case neg =>
    rw [if_neg hc]
    have hkr : ko r ∉ td.map Prod.fst := by
      intro hmem
      obtain ⟨p, hp, hpe⟩ := List.mem_map.mp hmem
      exact hc (List.any_eq_true.mpr ⟨p, hp, decide_eq_true hpe⟩)
    have hmapF : td.map (fun p => (p.1, p.2 ++ (rest.filter
            (fun q => decide (ko q = p.1))).map vo))
        = td.map (fun p => (p.1, p.2 ++ ((r :: rest).filter
            (fun q => decide (ko q = p.1))).map vo)) := by
      refine List.map_congr_left fun p hp => ?_
      have hne : ¬(ko r = p.1) := fun he => hkr (List.mem_map.mpr ⟨p, hp, he.symm⟩)
      simp [List.filter_cons, hne]
    have hseencongr : firstOccur (td.map Prod.fst ++ [ko r]) (rest.map ko)
        = firstOccur (ko r :: td.map Prod.fst) (rest.map ko) := by
      refine firstOccur_seen_congr fun a => ?_
      simp only [List.mem_append, List.mem_singleton, List.mem_cons, List.not_mem_nil,
        or_false]
      exact or_comm
    have htail : (firstOccur (ko r :: td.map Prod.fst) (rest.map ko)).map
          (fun k => (k, (rest.filter (fun q => decide (ko q = k))).map vo))
        = (firstOccur (ko r :: td.map Prod.fst) (rest.map ko)).map
          (fun k => (k, ((r :: rest).filter (fun q => decide (ko q = k))).map vo)) := by
      refine List.map_congr_left fun k hk => ?_
      have hkne : ¬(ko r = k) := by
        intro he
        exact (mem_firstOccur_imp hk).2 (he ▸ List.mem_cons_self _ _)
      simp [List.filter_cons, hkne]
    have hfo : firstOccur (td.map Prod.fst) (ko r :: rest.map ko)
        = ko r :: firstOccur (ko r :: td.map Prod.fst) (rest.map ko) := by
      rw [firstOccur, if_neg hkr]
    rw [List.map_append, List.map_append, List.map_cons, List.map_nil, List.map_cons,
      List.map_nil, hseencongr, hmapF, htail, List.map_cons, hfo, List.map_cons]
    simp [List.filter_cons, List.append_assoc]

/-- The `defaultdict(list)` fold is the declarative accumulation. -/
theorem collate_foldl (ko : Row → Key) (vo : Row → Value) :
    ∀ (rows : List Row) (td : List (Key × List Value)),
      rows.foldl (fun td r => collate td (ko r) (vo r)) td = collateSpec ko vo td rows := by
  intro rows
  induction rows with
  | nil =>
    intro td
    simp [collateSpec, firstOccur, Prod.mk.eta]
  | cons r rest ih =>
    intro td
    simp only [List.foldl_cons]
    rw [ih (collate td (ko r) (vo r)), collateSpec_cons]

theorem mem_groupby_key {df : DFrameView} {ds : List String} {kg : List Value × DFrameView}
    (h : kg ∈ groupby df ds) :
    (∃ r ∈ df.rows, rowKey df.dims ds r = kg.1) ∧
    kg.2 = { label := df.label, dims := df.dims,
             rows := df.rows.filter (fun r => decide (rowKey df.dims ds r = kg.1)) } := by
  unfold groupby at h
  obtain ⟨k, hk, he⟩ := List.mem_map.mp h
  have hk2 : k ∈ firstOccur [] (df.rows.map (rowKey df.dims ds)) :=
    (sortKeys_perm keyLe _).mem_iff.mp hk
  have hk3 := (mem_firstOccur_imp hk2).1
  obtain ⟨r, hr, hre⟩ := List.mem_map.mp hk3
  subst he
  exact ⟨⟨r, hr, hre⟩, rfl⟩

theorem rowKey_length (cols ds : List String) (r : Row) :
    (rowKey cols ds r).length = ds.length := by
  unfold rowKey
  exact List.length_map _ _

/-- The effective index list of the select mode: the supplied indices when
their size is exactly one or they are non-empty, else every row label. -/
def effectiveIndices (inds : List Value) (g : DFrameView) : List Value :=
  if inds.length ≠ 1 then (if inds ≠ [] then inds else g.rows.map (fun r => r.1)) else inds

theorem stateUpdate_indices (st : SelState) (view_dims : List String) (g : DFrameView) :
    (stateUpdate st view_dims g).indices = effectiveIndices st.indices g := by
  unfold stateUpdate effectiveIndices
  by_cases h : st.indices.length ≠ 1
  · rw [if_pos h, if_pos h]
  · rw [if_neg h, if_neg h]

theorem stateUpdate_viewDims (st : SelState) (view_dims : List String) (g : DFrameView) :
    (stateUpdate st view_dims g).viewDimensions =
      if st.indices.length ≠ 1 then "Index" :: view_dims else st.viewDimensions := by
  unfold stateUpdate
  by_cases h : st.indices.length ≠ 1
  · rw [if_pos h, if_pos h]
  · rw [if_neg h, if_neg h]

theorem selectGroup_ok_inv {vd : String} {view_dims : List String} {st : SelState}
    {g : DFrameView} {td : List (Key × Value)} {st2 : SelState}
    (h : selectGroup vd view_dims st g = Except.ok (td, st2)) :
    st2 = stateUpdate st view_dims g ∧
    ∃ entries, seqMap (selEntry vd view_dims (stateUpdate st view_dims g).indices.length)
        (selPairs view_dims (stateUpdate st view_dims g) g) = Except.ok entries ∧
      td = entries.foldl (fun a kv => odInsert a kv.1 kv.2) [] := by
  simp only [selectGroup] at h
  cases hs : seqMap (selEntry vd view_dims (stateUpdate st view_dims g).indices.length)
      (selPairs view_dims (stateUpdate st view_dims g) g) with
  | error e => rw [hs] at h; cases h
  | ok entries =>
    rw [hs] at h
    injection h with h
    obtain ⟨h1, h2⟩ := Prod.mk.injEq .. ▸ h
    exact ⟨h2.symm, entries, rfl, h1.symm⟩

theorem processMapGroup_none_inv {vm : ViewMethod} {vd : String} {view_dims : List String}
    {st : SelState} {g : DFrameView} {view : BuiltView} {st2 : SelState}
    (h : processMapGroup vm vd none view_dims st g = Except.ok (view, st2)) :
    ∃ td, selectGroup vd view_dims st g = Except.ok (td, st2) ∧
      view = vm td vd st2.viewDimensions := by
  unfold processMapGroup at h
  cases hs : selectGroup vd view_dims st g with
  | error e => rw [hs] at h; cases h
  | ok pr =>
    obtain ⟨td, st'⟩ := pr
    rw [hs] at h
    injection h with h
    obtain ⟨h1, h2⟩ := Prod.mk.injEq .. ▸ h
    subst h2
    exact ⟨td, rfl, h1.symm⟩

theorem export_nomap_ok {df : DFrameView} {vd : String} {inds : List Value}
    {rf : Option (List Value → Value)} {view_dims : List String} {vm : ViewMethod}
    {res : ExportResult}
    (h : exportDataview df vd inds rf view_dims [] vm = Except.ok res) :
    ∃ view st2,
      processMapGroup vm vd rf view_dims ⟨inds, view_dims⟩ (filteredFrame df vd view_dims [])
        = Except.ok (view, st2) ∧ res = ExportResult.single view := by
  simp only [exportDataview] at h
  cases hf : (vd :: view_dims ++ []).find? (fun d => decide (d ∉ df.dims)) with
  | some d => rw [hf] at h; cases h
  | none =>
    rw [hf] at h
    rw [if_neg (not_not_intro rfl)] at h
    cases hp : processMapGroup vm vd rf view_dims ⟨inds, view_dims⟩
        (filteredFrame df vd view_dims []) with
    | error e =>
      simp only [foldGroups, hp] at h
      exact Except.noConfusion h
    | ok pr =>
      obtain ⟨view, st2⟩ := pr
      simp only [foldGroups, hp] at h
      rw [if_neg (not_not_intro rfl)] at h
      injection h with h
      exact ⟨view, st2, rfl, h.symm⟩

theorem select_mapping_key {vd : String} {view_dims : List String} {st : SelState}
    {g : DFrameView} {td : List (Key × Value)} {st2 : SelState}
    (h : selectGroup vd view_dims st g = Except.ok (td, st2)) (hvd : view_dims ≠ [])
    {kv : Key × Value} (hkv : kv ∈ td) :
    ∃ k ind, k.length = view_dims.length ∧
      ind ∈ (stateUpdate st view_dims g).indices ∧
      (∃ r ∈ g.rows, rowKey g.dims view_dims r = k) ∧
      kv.1 = collapseKey
        (if (stateUpdate st view_dims g).indices.length ≠ 1 then ind :: k else k) := by
  obtain ⟨hst2, entries, hsm, htd⟩ := selectGroup_ok_inv h
  subst htd
  rcases foldl_odInsert_mem entries [] kv hkv with h1 | h1
  · obtain ⟨p, hp, _⟩ := h1
    exact absurd hp (List.not_mem_nil p)
  obtain ⟨e, he, hee⟩ := h1
  obtain ⟨t, ht, hte⟩ := seqMap_ok_mem hsm e he
  unfold selPairs at ht
  rw [if_pos hvd] at ht
  obtain ⟨l, hl, htl⟩ := List.mem_flatten.mp ht
  obtain ⟨kg, hkg, hkgl⟩ := List.mem_map.mp hl
  rw [← hkgl] at htl
  obtain ⟨ind, hind, hinde⟩ := List.mem_map.mp htl
  rw [← hinde] at hte
  unfold selEntry at hte
  simp only [selKey, if_pos hvd] at hte
  cases hloc : locValue kg.2 ind vd with
  | error er => rw [hloc] at hte; cases hte
  | ok v =>
    rw [hloc] at hte
    injection hte with hte
    obtain ⟨⟨r, hr, hre⟩, _⟩ := mem_groupby_key hkg
    refine ⟨kg.1, ind, ?_, hind, ⟨r, hr, hre⟩, ?_⟩
    · rw [← hre, rowKey_length]
    · rw [← hee, ← hte]

/-! ### Concrete frames used by witnesses and counterexamples -/

/-- The reduce-mode example table: rows `(cat=x, value=1)`, `(cat=x, value=3)`,
`(cat=y, value=10)`. -/
def c1df : DFrameView :=
  ⟨"", ["cat", "value"],
   [(Value.int 0, [Value.str "x", Value.int 1]),
    (Value.int 1, [Value.str "x", Value.int 3]),
    (Value.int 2, [Value.str "y", Value.int 10])]⟩

/-- Columns `a,value`, one row labelled 5 with `a=7, value=42`. -/
def dfAV : DFrameView := ⟨"", ["a", "value"], [(Value.int 5, [Value.int 7, Value.int 42])]⟩

/-- Columns `a,value`, rows labelled 5 and 6, both with `a=7`. -/
def dfAV2 : DFrameView :=
  ⟨"", ["a", "value"],
   [(Value.int 5, [Value.int 7, Value.int 42]), (Value.int 6, [Value.int 7, Value.int 43])]⟩

/-- Map-dimension example: column `m` splits the rows into two groups; the
row label 5 occurs in both groups. -/
def c4df : DFrameView :=
  ⟨"", ["m", "a", "value"],
   [(Value.int 5, [Value.int 1, Value.int 7, Value.int 42]),
    (Value.int 5, [Value.int 2, Value.int 8, Value.int 43]),
    (Value.int 6, [Value.int 2, Value.int 8, Value.int 44])]⟩

/-- The `m=2` group of `c4df`, exactly as `groupby` yields it. -/
def c4group2 : DFrameView :=
  ⟨"", ["m", "a", "value"],
   [(Value.int 5, [Value.int 2, Value.int 8, Value.int 43]),
    (Value.int 6, [Value.int 2, Value.int 8, Value.int 44])]⟩

/-- A single `value` column (zero heatmap dims). -/
def c6df0 : DFrameView := ⟨"", ["value"], [(Value.int 0, [Value.int 5])]⟩

/-- Three candidate heatmap dims plus the value column. -/
def c6df3 : DFrameView :=
  ⟨"", ["a", "b", "c", "value"],
   [(Value.int 0, [Value.int 1, Value.int 2, Value.int 3, Value.int 10])]⟩

/-- Two-column frame for the selection examples. -/
def df7 : DFrameView :=
  ⟨"", ["a", "b"],
   [(Value.int 0, [Value.int 3, Value.int 1]), (Value.int 1, [Value.int 9, Value.int 2])]⟩

/-- The slice `1 < a < 5` of `df7`. -/
def out7 : DFrameView := ⟨"", ["a", "b"], [(Value.int 0, [Value.int 3, Value.int 1])]⟩

/-- Grouping example: column `g` takes value 1 twice and 2 once. -/
def df8 : DFrameView :=
  ⟨"", ["g", "v"],
   [(Value.int 0, [Value.int 1, Value.int 10]),
    (Value.int 1, [Value.int 2, Value.int 20]),
    (Value.int 2, [Value.int 1, Value.int 30])]⟩

/-- The groups `splitDimensions df8 ["g"]` produces. -/
def groups8 : List (List Value × DFrameView) :=
  [([Value.int 1],
    ⟨"", ["v"], [(Value.int 0, [Value.int 10]), (Value.int 2, [Value.int 30])]⟩),
   ([Value.int 2], ⟨"", ["v"], [(Value.int 1, [Value.int 20])]⟩)]

/-! ### Claim theorems -/

/-- C7: a row is in `select({d: v})` exactly when its `d`-cell equals `v`;
for a slice `(low, high)` exactly when `low < cell < high`, strictly on
both ends; several criteria are conjoined.  Stated for any criteria list:
membership in the selection is membership in the source rows plus
satisfaction of every criterion. -/
theorem C7_select_membership (df : DFrameView) (crits : List (String × Criterion))
    (out : DFrameView) (r : Row) (h : select df crits = Except.ok out) :
    r ∈ out.rows ↔ r ∈ df.rows ∧
      ∀ dc ∈ crits, matchesCriterion dc.2 (cellOf df.dims r.2 dc.1) = true := by
  induction crits generalizing df with
  | nil =>
    injection h with h
    subst h
    simp
  | cons dc rest ih =>
    unfold select at h
    by_cases hd : dc.1 ∈ df.dims
    · rw [if_pos hd] at h
      rw [ih _ h]
      simp only [List.mem_filter, List.forall_mem_cons]
      constructor
      · rintro ⟨⟨h1, h2⟩, h3⟩
        exact ⟨h1, h2, h3⟩
      · rintro ⟨h1, h2, h3⟩
        exact ⟨⟨h1, h2⟩, h3⟩
    · rw [if_neg hd] at h
      cases h

/-- Witness for C7 at a concrete frame: the slice `1 < a < 5` keeps the row
with `a=3` and drops the row with `a=9`. -/
theorem C7_select_membership_witness :
    select df7 [("a", Criterion.interval (Value.int 1) (Value.int 5))] = Except.ok out7 ∧
    ((Value.int 1, [Value.int 9, Value.int 2]) ∈ out7.rows ↔
      (Value.int 1, [Value.int 9, Value.int 2]) ∈ df7.rows ∧
      ∀ dc ∈ [("a", Criterion.interval (Value.int 1) (Value.int 5))],
        matchesCriterion dc.2
          (cellOf df7.dims ((Value.int 1, [Value.int 9, Value.int 2]) : Row).2 dc.1) = true) :=
  ⟨rfl, C7_select_membership df7 _ out7 _ rfl⟩

/-- C9: positional access with at most `ndims` values zips them onto the
dimension labels in declared order and delegates to `select`; with more
values than dimensions it raises instead of truncating. -/
theorem C9_getitem_arity (df : DFrameView) (key : List Criterion) :
    (key.length ≤ df.dims.length → getitem df key = select df (df.dims.zip key)) ∧
    (df.dims.length < key.length → getitem df key =
      Except.error (PError.selectionArity df.dims.length key.length)) := by
  unfold getitem
  by_cases hk : key = []
  · subst hk
    constructor
    · intro _
      rw [if_pos rfl, List.zip_nil_right]
      rfl
    · intro hlt
      simp at hlt
  · rw [if_neg hk]
    constructor
    · intro hle
      rw [if_pos hle]
    · intro hlt
      rw [if_neg (by omega)]

/-- Witness for C9: one value on a two-dimensional frame delegates to
`select`; three values raise the arity error. -/
theorem C9_getitem_arity_witness :
    getitem df7 [Criterion.eq (Value.int 3)] =
      select df7 (df7.dims.zip [Criterion.eq (Value.int 3)]) ∧
    getitem df7 [Criterion.eq (Value.int 3), Criterion.eq (Value.int 1),
        Criterion.eq (Value.int 1)] =
      Except.error (PError.selectionArity 2 3) :=
  ⟨(C9_getitem_arity df7 _).1 (by decide), (C9_getitem_arity df7 _).2 (by decide)⟩

theorem foldGroups_reduce_state (vm : ViewMethod) (vd : String) (f : List Value → Value)
    (view_dims : List String) :
    ∀ (gs : List (List Value × DFrameView)) (i1 i2 : List Value) (vds : List String),
      foldGroups vm vd (some f) view_dims ⟨i1, vds⟩ gs =
        foldGroups vm vd (some f) view_dims ⟨i2, vds⟩ gs := by
  intro gs
  induction gs with
  | nil => intro i1 i2 vds; rfl
  | cons g gs ih =>
    intro i1 i2 vds
    simp only [foldGroups, processMapGroup]
    rw [ih i1 i2 vds]

/-- C10: with a reduce function supplied, the projection never consults the
index list — any two index lists give identical results. -/
theorem C10_reduce_precedence (df : DFrameView) (vd : String) (f : List Value → Value)
    (view_dims map_dims : List String) (vm : ViewMethod) (inds inds2 : List Value) :
    exportDataview df vd inds (some f) view_dims map_dims vm =
      exportDataview df vd inds2 (some f) view_dims map_dims vm := by
  simp only [exportDataview]
  cases hf : (vd :: view_dims ++ map_dims).find? (fun d => decide (d ∉ df.dims)) with
  | some d => rfl
  | none => rw [foldGroups_reduce_state vm vd f view_dims _ inds inds2 view_dims]

theorem splitDimensions_ok_inv {df : DFrameView} {ds : List String}
    {groups : List (List Value × DFrameView)}
    (h : splitDimensions df ds = Except.ok groups) :
    groups = (groupby df ds).map (fun kg =>
      (kg.1, { label := df.label, dims := df.dims.filter (fun d => decide (d ∉ ds)),
               rows := kg.2.rows.map (projectCols df.dims
                 (df.dims.filter (fun d => decide (d ∉ ds)))) })) := by
  simp only [splitDimensions] at h
  by_cases hinv : firstOccur [] (ds.filter (fun d => decide (d ∉ df.dims))) ≠ []
  · rw [if_pos hinv] at h; cases h
  · rw [if_neg hinv] at h
    by_cases hds : ds = []
    · rw [if_pos hds] at h; cases h
    · rw [if_neg hds] at h
      injection h with h
      exact h.symm

/-- C8: whenever splitting succeeds, the split-key preimages of the
produced groups partition the source rows (their concatenation is a
permutation of the row list), every group holds exactly the rows whose
split-dimension values equal its key (reindexed to the remaining columns),
and every group's dimension list is the source list with the split
dimensions dropped. -/
theorem C8_grouping_partition (df : DFrameView) (ds : List String)
    (groups : List (List Value × DFrameView))
    (h : splitDimensions df ds = Except.ok groups) :
    ((groups.map (fun g => df.rows.filter
        (fun r => decide (rowKey df.dims ds r = g.1)))).flatten).Perm df.rows ∧
    (∀ g ∈ groups, g.2.rows =
      (df.rows.filter (fun r => decide (rowKey df.dims ds r = g.1))).map
        (projectCols df.dims (df.dims.filter (fun d => decide (d ∉ ds))))) ∧
    (∀ g ∈ groups, g.2.dims = df.dims.filter (fun d => decide (d ∉ ds))) := by
  have hg := splitDimensions_ok_inv h
  subst hg
  refine ⟨?_, ?_, ?_⟩
  · rw [List.map_map]
    have h1 : (groupby df ds).map ((fun g => df.rows.filter
          (fun r => decide (rowKey df.dims ds r = g.1))) ∘ (fun kg =>
        (kg.1, ({ label := df.label, dims := df.dims.filter (fun d => decide (d ∉ ds)),
                  rows := kg.2.rows.map (projectCols df.dims
                    (df.dims.filter (fun d => decide (d ∉ ds)))) } : DFrameView)))) =
        (sortKeys keyLe (firstOccur [] (df.rows.map (rowKey df.dims ds)))).map
          (fun k => df.rows.filter (fun r => decide (rowKey df.dims ds r = k))) := by
      unfold groupby
      rw [List.map_map]
      exact List.map_congr_left fun k _ => rfl
    rw [h1]
    refine join_filter_perm (rowKey df.dims ds) _ df.rows ?_ ?_
    · exact ((sortKeys_perm keyLe _).symm).nodup nodup_firstOccur
    · intro r hr
      refine ((sortKeys_perm keyLe _).symm).mem_iff.mp ?_
      exact mem_firstOccur_of (List.mem_map.mpr ⟨r, hr, rfl⟩) (List.not_mem_nil _)
  · intro g hg
    obtain ⟨kg, hkg, hke⟩ := List.mem_map.mp hg
    obtain ⟨_, hrows⟩ := mem_groupby_key hkg
    subst hke
    simp only
    rw [hrows]
  · intro g hg
    obtain ⟨kg, hkg, hke⟩ := List.mem_map.mp hg
    subst hke
    rfl

/-- Witness for C8 at a concrete frame: splitting `df8` on `g` gives the
two groups of `groups8`, and the partition properties hold there. -/
theorem C8_grouping_partition_witness :
    splitDimensions df8 ["g"] = Except.ok groups8 ∧
    (((groups8.map (fun g => df8.rows.filter
        (fun r => decide (rowKey df8.dims ["g"] r = g.1)))).flatten).Perm df8.rows ∧
    (∀ g ∈ groups8, g.2.rows =
      (df8.rows.filter (fun r => decide (rowKey df8.dims ["g"] r = g.1))).map
        (projectCols df8.dims (df8.dims.filter (fun d => decide (d ∉ ["g"]))))) ∧
    (∀ g ∈ groups8, g.2.dims = df8.dims.filter (fun d => decide (d ∉ ["g"])))) :=
  ⟨rfl, C8_grouping_partition df8 ["g"] groups8 rfl⟩

/-- C5 (amended): when the projection call references any undeclared
dimension, it raises the invalid-dimension error eagerly (no view is ever
produced), reporting the first offending name in the order `value_dim`,
`view_dims`, `map_dims` — a single name, not the complete list. -/
theorem C5_first_invalid_reported (df : DFrameView) (vd : String) (inds : List Value)
    (rf : Option (List Value → Value)) (view_dims map_dims : List String) (vm : ViewMethod)
    (d : String) (hmem : d ∈ vd :: view_dims ++ map_dims) (hnot : d ∉ df.dims) :
    ∃ e, e ∈ vd :: view_dims ++ map_dims ∧ e ∉ df.dims ∧
      exportDataview df vd inds rf view_dims map_dims vm =
        Except.error (PError.invalidDim [e]) := by
  cases hf : (vd :: view_dims ++ map_dims).find? (fun x => decide (x ∉ df.dims)) with
  | none =>
    exfalso
    have hx := List.find?_eq_none.mp hf d hmem
    simp only [decide_eq_true_eq] at hx
    exact hx hnot
  | some e =>
    have he := List.find?_some hf
    simp only [decide_eq_true_eq] at he
    refine ⟨e, List.mem_of_find?_eq_some hf, he, ?_⟩
    simp only [exportDataview, hf]

/-- Witness for C5: a single unknown view dimension makes the call fail
eagerly with the invalid-dimension error naming it. -/
theorem C5_first_invalid_reported_witness :
    ∃ e, e ∈ "value" :: ["bad"] ++ [] ∧ e ∉ dfAV.dims ∧
      exportDataview dfAV "value" [] none ["bad"] [] (createTable dfAV.label) =
        Except.error (PError.invalidDim [e]) :=
  C5_first_invalid_reported dfAV "value" [] none ["bad"] [] (createTable dfAV.label) "bad"
    (by decide) (by decide)

/-- C5 counterexample: with the two unknown view dimensions `bad1`, `bad2`
the raised error names only `bad1`, the first one encountered — not all
offending names, as the claim asserts. -/
theorem C5_invalid_dim_counterexample :
    DFrameTable dfAV "value" [] none ["bad1", "bad2"] [] =
      Except.error (PError.invalidDim ["bad1"]) ∧
    "bad2" ∉ ["bad1"] := ⟨rfl, by decide⟩

/-- C1 (amended): reduce-mode aggregation.  With a reduce function and
valid dimensions, the projection returns a single view whose mapping has
one entry per distinct group key, in order of first appearance, mapping it
to `reduce_fn` of that group's value-column entries.  The group key of a
row is the *tuple* of its view-dimension values (a one-element tuple for a
single view dimension, not a bare scalar), or the `value_dim` name when
`view_dims` is empty. -/
theorem C1_reduce_aggregation (df : DFrameView) (vd : String) (inds : List Value)
    (rf : List Value → Value) (view_dims : List String) (vm : ViewMethod)
    (hv : ∀ d ∈ vd :: view_dims, d ∈ df.dims) :
    exportDataview df vd inds (some rf) view_dims [] vm =
      Except.ok (ExportResult.single (vm
        ((firstOccur [] ((filteredFrame df vd view_dims []).rows.map
            (reduceKeyOf (filteredFrame df vd view_dims []).dims vd view_dims))).map
          (fun k => (k, rf (((filteredFrame df vd view_dims []).rows.filter
              (fun r => decide (reduceKeyOf (filteredFrame df vd view_dims []).dims vd
                view_dims r = k))).map
            (fun r => cellOf (filteredFrame df vd view_dims []).dims r.2 vd)))))
        vd view_dims)) := by
  have hfind : (vd :: view_dims ++ []).find? (fun d => decide (d ∉ df.dims)) = none := by
    rw [List.find?_eq_none]
    intro x hx
    rw [List.append_nil] at hx
    simp only [decide_eq_true_eq, not_not]
    exact hv x hx
  simp only [exportDataview, hfind]
  rw [if_neg (not_not_intro rfl)]
  simp only [foldGroups, processMapGroup]
  rw [if_neg (not_not_intro rfl)]
  have hred : reduceGroup vd rf view_dims (filteredFrame df vd view_dims []) =
      (firstOccur [] ((filteredFrame df vd view_dims []).rows.map
          (reduceKeyOf (filteredFrame df vd view_dims []).dims vd view_dims))).map
        (fun k => (k, rf (((filteredFrame df vd view_dims []).rows.filter
            (fun r => decide (reduceKeyOf (filteredFrame df vd view_dims []).dims vd
              view_dims r = k))).map
          (fun r => cellOf (filteredFrame df vd view_dims []).dims r.2 vd)))) := by
    unfold reduceGroup
    have hcf := collate_foldl
      (reduceKeyOf (filteredFrame df vd view_dims []).dims vd view_dims)
      (fun r => cellOf (filteredFrame df vd view_dims []).dims r.2 vd)
      (filteredFrame df vd view_dims []).rows []
    rw [hcf]
    unfold collateSpec
    simp only [List.map_nil, List.nil_append, List.map_map]
    rfl
  rw [hred]

/-- C1 counterexample: on the concrete example table the produced mapping
is keyed by the one-element tuples `('x',)` and `('y',)` — the key list is
exactly those two tuples, so there is no bare-scalar key `'x'` mapping to
4 as the claim's `{'x': 4, 'y': 10}` asserts. -/
theorem C1_reduce_key_counterexample :
    DFrameTable c1df "value" [] (some sumVals) ["cat"] [] =
      Except.ok (ExportResult.single
        { label := "value", valueDim := "value", dims := ["cat"],
          mapping := [(Key.tup [Value.str "x"], Value.int 4),
                      (Key.tup [Value.str "y"], Value.int 10)] }) ∧
    (Key.scalar (Value.str "x"), Value.int 4) ∉
      ([(Key.tup [Value.str "x"], Value.int 4),
        (Key.tup [Value.str "y"], Value.int 10)] : List (Key × Value)) := by
  constructor
  · rfl
  · decide

/-- Witness for C1 at the example table: the reduced mapping is
`{('x',): 4, ('y',): 10}`. -/
theorem C1_reduce_aggregation_witness :
    DFrameTable c1df "value" [] (some sumVals) ["cat"] [] =
      Except.ok (ExportResult.single
        { label := "value", valueDim := "value", dims := ["cat"],
          mapping := [(Key.tup [Value.str "x"], Value.int 4),
                      (Key.tup [Value.str "y"], Value.int 10)] }) :=
  (C1_reduce_aggregation c1df "value" [] sumVals ["cat"] (createTable c1df.label)
    (by decide)).trans (by rfl)

theorem collapseKey_tup {l : List Value} (h : l.length > 1) : collapseKey l = Key.tup l := by
  unfold collapseKey
  rw [if_pos h]

/-- C3: in select mode with one view dimension, a single supplied index
and no map dimensions, every produced mapping key is the bare scalar value
of that view dimension (never a one-tuple), and no Index dimension is
added. -/
theorem C3_key_shape (df : DFrameView) (vd d : String) (i : Value) (v : BuiltView)
    (h : DFrameTable df vd [i] none [d] [] = Except.ok (ExportResult.single v)) :
    v.dims = [d] ∧
    ∀ kv ∈ v.mapping, ∃ w : Value,
      kv.1 = Key.scalar w ∧
      ∃ r ∈ (filteredFrame df vd [d] []).rows,
        cellOf (filteredFrame df vd [d] []).dims r.2 d = w := by
  have h' : exportDataview df vd [i] none [d] [] (createTable df.label) =
      Except.ok (ExportResult.single v) := h
  obtain ⟨view, st2, hp, hres⟩ := export_nomap_ok h'
  injection hres with hres
  subst hres
  obtain ⟨td, hsel, hview⟩ := processMapGroup_none_inv hp
  have hst : stateUpdate ⟨[i], [d]⟩ [d] (filteredFrame df vd [d] []) = ⟨[i], [d]⟩ := by
    simp [stateUpdate]
  obtain ⟨hst2, _⟩ := selectGroup_ok_inv hsel
  constructor
  · rw [hview]
    show st2.viewDimensions = [d]
    rw [hst2, hst]
  · intro kv hkv
    have hkv2 : kv ∈ td := by rw [hview] at hkv; exact hkv
    obtain ⟨k, ind, hklen, hind, ⟨r, hr, hre⟩, hkey⟩ :=
      select_mapping_key hsel (by simp) hkv2
    rw [hst] at hkey
    have hkey2 : kv.1 = collapseKey k := by simpa using hkey
    have hk1 : k.length = 1 := hklen
    obtain ⟨w, hw⟩ := List.length_eq_one.mp hk1
    subst hw
    refine ⟨w, ?_, r, hr, ?_⟩
    · rw [hkey2]
      rfl
    · have hform : rowKey (filteredFrame df vd [d] []).dims [d] r =
          [cellOf (filteredFrame df vd [d] []).dims r.2 d] := rfl
      rw [hform] at hre
      exact (List.cons_eq_cons.mp hre).1

/-- The view produced by `table(dfAV, value, indices=[5], dims=[a])`. -/
def c3view : BuiltView :=
  { label := "value", valueDim := "value", dims := ["a"],
    mapping := [(Key.scalar (Value.int 7), Value.int 42)] }

/-- Witness for C3: on the one-row table with `a=7, value=42` and
`indices=[5]` the single output key is the bare scalar 7. -/
theorem C3_key_shape_witness :
    DFrameTable dfAV "value" [Value.int 5] none ["a"] [] =
      Except.ok (ExportResult.single c3view) ∧
    (c3view.dims = ["a"] ∧
     ∀ kv ∈ c3view.mapping,
       ∃ w : Value, kv.1 = Key.scalar w ∧
         ∃ r ∈ (filteredFrame dfAV "value" ["a"] []).rows,
           cellOf (filteredFrame dfAV "value" ["a"] []).dims r.2 "a" = w) :=
  ⟨rfl, C3_key_shape dfAV "value" "a" (Value.int 5) c3view rfl⟩

/-- C2 (amended): in select mode with no map dimensions the synthetic
Index dimension is prepended to the output dimension list exactly when the
*supplied* index set has size other than one; but a key receives the row
index as its first component exactly when the *effective* index list (the
supplied indices, or every row label when none were supplied) has size
other than one.  The two conditions differ when no indices are supplied
and the table has exactly one row. -/
theorem C2_disambiguation_amended (df : DFrameView) (vd : String) (inds : List Value)
    (view_dims : List String) (v : BuiltView)
    (h : DFrameTable df vd inds none view_dims [] = Except.ok (ExportResult.single v))
    (hvd : view_dims ≠ []) :
    v.dims = (if inds.length ≠ 1 then "Index" :: view_dims else view_dims) ∧
    ∀ kv ∈ v.mapping,
      ∃ k : List Value, k.length = view_dims.length ∧
        (if (effectiveIndices inds (filteredFrame df vd view_dims [])).length ≠ 1
         then ∃ ind ∈ effectiveIndices inds (filteredFrame df vd view_dims []),
                kv.1 = Key.tup (ind :: k)
         else kv.1 = collapseKey k) := by
  have h' : exportDataview df vd inds none view_dims [] (createTable df.label) =
      Except.ok (ExportResult.single v) := h
  obtain ⟨view, st2, hp, hres⟩ := export_nomap_ok h'
  injection hres with hres
  subst hres
  obtain ⟨td, hsel, hview⟩ := processMapGroup_none_inv hp
  obtain ⟨hst2, _⟩ := selectGroup_ok_inv hsel
  constructor
  · rw [hview]
    show st2.viewDimensions = _
    rw [hst2, stateUpdate_viewDims]
  · intro kv hkv
    have hkv2 : kv ∈ td := by rw [hview] at hkv; exact hkv
    obtain ⟨k, ind, hklen, hind, _, hkey⟩ := select_mapping_key hsel hvd hkv2
    rw [stateUpdate_indices] at hind hkey
    refine ⟨k, hklen, ?_⟩
    by_cases hc : (effectiveIndices inds (filteredFrame df vd view_dims [])).length ≠ 1
    · rw [if_pos hc]
      rw [if_pos hc] at hkey
      refine ⟨ind, hind, ?_⟩
      rw [hkey]
      apply collapseKey_tup
      have hpos : 0 < view_dims.length := List.length_pos.mpr hvd
      rw [List.length_cons, hklen]
      omega
    · rw [if_neg hc]
      rw [if_neg hc] at hkey
      exact hkey

/-- The view of `table(dfAV2, value, indices=[5,6], dims=[a])`. -/
def c2wview : BuiltView :=
  { label := "value", valueDim := "value", dims := ["Index", "a"],
    mapping := [(Key.tup [Value.int 5, Value.int 7], Value.int 42),
                (Key.tup [Value.int 6, Value.int 7], Value.int 43)] }

/-- Witness for C2 (amended) at the claim's own example: table with rows 5
and 6 both having `a=7`, `indices=[5,6]`: the Index dimension is added and
the keys are the tuples `(5,7)` and `(6,7)`. -/
theorem C2_disambiguation_amended_witness :
    DFrameTable dfAV2 "value" [Value.int 5, Value.int 6] none ["a"] [] =
      Except.ok (ExportResult.single c2wview) ∧
    (c2wview.dims =
      (if ([Value.int 5, Value.int 6] : List Value).length ≠ 1
       then "Index" :: ["a"] else ["a"]) ∧
     ∀ kv ∈ c2wview.mapping,
       ∃ k : List Value, k.length = (["a"] : List String).length ∧
         (if (effectiveIndices [Value.int 5, Value.int 6]
               (filteredFrame dfAV2 "value" ["a"] [])).length ≠ 1
          then ∃ ind ∈ effectiveIndices [Value.int 5, Value.int 6]
                 (filteredFrame dfAV2 "value" ["a"] []),
                 kv.1 = Key.tup (ind :: k)
          else kv.1 = collapseKey k)) :=
  ⟨rfl, C2_disambiguation_amended dfAV2 "value" [Value.int 5, Value.int 6] ["a"] c2wview rfl
    (by simp)⟩

/-- C2 counterexample: supplied index set of size 0 on a one-row table:
the Index dimension is added to the output dims, yet the single produced
key is the bare scalar 7 — no row index is prepended, contradicting the
claim that every key gets the index whenever the supplied size differs
from one. -/
def c2cview : BuiltView :=
  { label := "value", valueDim := "value", dims := ["Index", "a"],
    mapping := [(Key.scalar (Value.int 7), Value.int 42)] }

theorem C2_disambiguation_counterexample :
    DFrameTable dfAV "value" [] none ["a"] [] =
      Except.ok (ExportResult.single c2cview) ∧
    (∃ kv, kv ∈ c2cview.mapping ∧ kv.1 ≠ Key.tup [Value.int 5, Value.int 7]) :=
  ⟨rfl, ⟨(Key.scalar (Value.int 7), Value.int 42), by decide⟩⟩

/-- First map-group view of the C4 failing input. -/
def c4view1 : BuiltView :=
  { label := "value", valueDim := "value", dims := ["Index", "a"],
    mapping := [(Key.scalar (Value.int 7), Value.int 42)] }

/-- Second map-group view the code actually produces for the C4 input:
built with the index list `[5]` and the Index flag leaked from the first
group, so row 6 is silently omitted. -/
def c4view2 : BuiltView :=
  { label := "value", valueDim := "value", dims := ["Index", "a"],
    mapping := [(Key.scalar (Value.int 8), Value.int 43)] }

/-- The view that processing the second map group alone (fresh select-mode
state) produces: both rows appear, keyed `(5,8)` and `(6,8)`. -/
def c4view2indep : BuiltView :=
  { label := "value", valueDim := "value", dims := ["Index", "a"],
    mapping := [(Key.tup [Value.int 5, Value.int 8], Value.int 43),
                (Key.tup [Value.int 6, Value.int 8], Value.int 44)] }

/-- C4: evaluation at the failing input.  The projection over map dimension
`m` returns the two map keys, but the second group's view is computed with
the `indices`/`view_dimensions` state mutated by the first group: it keeps
only the row labelled 5 and no Index component, whereas processing the
second group alone from the initial state yields both rows keyed with
their indices.  The second group's view is therefore not the view built
from that group's rows alone. -/
theorem C4_map_state_leak :
    DFrameTable c4df "value" [] none ["a"] ["m"] =
      Except.ok (ExportResult.vmap
        [([Value.int 1], c4view1), ([Value.int 2], c4view2)]) ∧
    processMapGroup (createTable "") "value" none ["a"] ⟨[], ["a"]⟩ c4group2 =
      Except.ok (c4view2indep, ⟨[Value.int 5, Value.int 6], ["Index", "a"]⟩) ∧
    c4view2 ≠ c4view2indep := by
  refine ⟨rfl, rfl, ?_⟩
  decide

/-- C6: evaluation at the failing inputs.  The arity guard of `heatmap` is
the chained comparison `1 > len(dims) > 2`, which no length satisfies, so
calling the heatmap conversion with zero dims or with three dims does not
raise the arity error — both calls succeed, contradicting the claimed
ArityError. -/
theorem C6_heatmap_arity_dead :
    DFrameHeatmap c6df0 "value" [] none (some sumVals) [] =
      Except.ok (ExportResult.single
        { label := "value", valueDim := "value", dims := [],
          mapping := [(Key.str "value", Value.int 5)] }) ∧
    DFrameHeatmap c6df3 "value" ["a", "b", "c"] none (some sumVals) [] =
      Except.ok (ExportResult.single
        { label := "value", valueDim := "value", dims := ["a", "b", "c"],
          mapping := [(Key.tup [Value.int 1, Value.int 2, Value.int 3],
                       Value.int 10)] }) :=
  ⟨rfl, rfl⟩

end Holoviews
